import Mathlib

/-!
# scp-machine: `scp::Utils` (src/scp/scpUtils.cpp)

A shallow embedding of the graph-query helpers of `scpUtils.cpp` over an
explicit model of the sc-memory store they call into, followed by the
properties proved about them.

The store (`ScMemoryContext`), the element types (`ScType`) and the
keynode catalog (`Keynodes`) are not part of `scpUtils.cpp`; they are
modelled here as the capabilities listed in section 6 of the specification.
-/

namespace scp

/-! ## The store model -/

/-- Modelled from the spec: the element address (`ScAddr`), made of a
segment and an offset as printed by `printSystemIdentifier`. -/
structure ScAddr where
  seg : Nat
  offset : Nat
deriving DecidableEq

/-- Modelled from the spec: the empty address, the value `ScAddr::Reset`
leaves behind. -/
def ScAddr.empty : ScAddr := ⟨0, 0⟩

/-- Modelled from the spec: `ScAddr::IsValid`, true for every address but
the empty one. -/
def ScAddr.IsValid (a : ScAddr) : Bool := a != ScAddr.empty

/-- Modelled from the spec: an element type is a bit mask (`sc_type`). -/
abbrev ScType := Nat

/-- Modelled from the spec: type bit of nodes. -/
def sc_type_node : ScType := 0x1
/-- Modelled from the spec: type bit of value-links. -/
def sc_type_link : ScType := 0x2
/-- Modelled from the spec: type bit of undirected common edges. -/
def sc_type_edge_common : ScType := 0x4
/-- Modelled from the spec: type bit of directed common edges. -/
def sc_type_arc_common : ScType := 0x8
/-- Modelled from the spec: type bit of access edges. -/
def sc_type_arc_access : ScType := 0x10
/-- Modelled from the spec: type bit of constants. -/
def sc_type_const : ScType := 0x20
/-- Modelled from the spec: type bit of variables. -/
def sc_type_var : ScType := 0x40
/-- Modelled from the spec: type bit of positive access edges. -/
def sc_type_arc_pos : ScType := 0x80
/-- Modelled from the spec: type bit of negative access edges. -/
def sc_type_arc_neg : ScType := 0x100
/-- Modelled from the spec: type bit of fuzzy access edges. -/
def sc_type_arc_fuz : ScType := 0x200
/-- Modelled from the spec: type bit of temporary access edges. -/
def sc_type_arc_temp : ScType := 0x400
/-- Modelled from the spec: type bit of permanent access edges. -/
def sc_type_arc_perm : ScType := 0x800
/-- Modelled from the spec: the bits that make an element an edge. -/
def sc_type_arc_mask : ScType :=
  sc_type_arc_access ||| sc_type_arc_common ||| sc_type_edge_common

namespace ScType

/-- Modelled from the spec: `ScType::NodeConst`. -/
def NodeConst : ScType := sc_type_node ||| sc_type_const
/-- Modelled from the spec: `ScType::EdgeAccess`, any access edge. -/
def EdgeAccess : ScType := sc_type_arc_access
/-- Modelled from the spec: `ScType::EdgeAccessConstPosPerm`, the canonical
membership edge type. -/
def EdgeAccessConstPosPerm : ScType :=
  sc_type_arc_access ||| sc_type_const ||| sc_type_arc_pos ||| sc_type_arc_perm
/-- Modelled from the spec: `ScType::NodeVar`. -/
def NodeVar : ScType := sc_type_node ||| sc_type_var
/-- Modelled from the spec: `ScType::EdgeAccessConstPosTemp`, a temporary
access edge. -/
def EdgeAccessConstPosTemp : ScType :=
  sc_type_arc_access ||| sc_type_const ||| sc_type_arc_pos ||| sc_type_arc_temp
/-- Modelled from the spec: `ScType::EdgeDCommonConst`. -/
def EdgeDCommonConst : ScType := sc_type_arc_common ||| sc_type_const

/-- Modelled from the spec: `ScType::BitAnd`, used as a truth value. -/
def BitAnd (t mask : ScType) : Bool := t &&& mask != 0
/-- Modelled from the spec: `ScType::IsNode`. -/
def IsNode (t : ScType) : Bool := BitAnd t sc_type_node
/-- Modelled from the spec: `ScType::IsLink`. -/
def IsLink (t : ScType) : Bool := BitAnd t sc_type_link
/-- Modelled from the spec: `ScType::IsEdge`. -/
def IsEdge (t : ScType) : Bool := BitAnd t sc_type_arc_mask

/-- Modelled from the spec: the iterator's type test; an element of type
`t` matches the pattern `pat` when it has every bit of the pattern, so the
pattern `ScType(0)` is a wildcard. -/
def matchesPattern (t pat : ScType) : Bool := t &&& pat == pat

end ScType

/-- Modelled from the spec: one element of the store: its address, its type,
its system identifier (empty when none is assigned) and, for an edge, its
source and target. -/
structure ScElement where
  addr : ScAddr
  type : ScType
  idtf : String
  arcBegin : ScAddr
  arcEnd : ScAddr
deriving DecidableEq

/-- Modelled from the spec: a node element. -/
def ScElement.mkNode (a : ScAddr) (t : ScType) (idtf : String) : ScElement :=
  ⟨a, t, idtf, ScAddr.empty, ScAddr.empty⟩

/-- Modelled from the spec: an edge element from `src` to `trg`. -/
def ScElement.mkEdge (a : ScAddr) (t : ScType) (src trg : ScAddr) : ScElement :=
  ⟨a, t, "", src, trg⟩

/-- Modelled from the spec: the state of the store behind a memory context:
its elements, listed in the order in which the store's iterators visit
them. -/
abbrev ScMemoryContext := List ScElement

namespace ScMemoryContext

/-- Modelled from the spec: the element stored at an address, if any. -/
def element? (ctx : ScMemoryContext) (a : ScAddr) : Option ScElement :=
  ctx.find? (fun el => el.addr == a)

/-- Modelled from the spec: `ScMemoryContext::IsElement`. -/
def IsElement (ctx : ScMemoryContext) (a : ScAddr) : Bool :=
  a.IsValid && (ctx.element? a).isSome

/-- Modelled from the spec: `ScMemoryContext::GetElementType`; the empty type
when the address holds no element. -/
def GetElementType (ctx : ScMemoryContext) (a : ScAddr) : ScType :=
  match ctx.element? a with
  | some el => el.type
  | none => 0

/-- Modelled from the spec: `ScMemoryContext::GetArcBegin`; the empty address
when the element is not an edge. -/
def GetArcBegin (ctx : ScMemoryContext) (a : ScAddr) : ScAddr :=
  match ctx.element? a with
  | some el => if ScType.IsEdge el.type then el.arcBegin else ScAddr.empty
  | none => ScAddr.empty

/-- Modelled from the spec: `ScMemoryContext::GetArcEnd`; the empty address
when the element is not an edge. -/
def GetArcEnd (ctx : ScMemoryContext) (a : ScAddr) : ScAddr :=
  match ctx.element? a with
  | some el => if ScType.IsEdge el.type then el.arcEnd else ScAddr.empty
  | none => ScAddr.empty

/-- Modelled from the spec: `ScMemoryContext::HelperGetSystemIdtf`; the empty
string when no identifier is assigned. -/
def HelperGetSystemIdtf (ctx : ScMemoryContext) (a : ScAddr) : String :=
  match ctx.element? a with
  | some el => el.idtf
  | none => ""

/-- Modelled from the spec: the triples `(source, edge, target)` produced by
`Iterator3(source address, edge type, target address)`. -/
def Iterator3_f_a_f (ctx : ScMemoryContext) (src : ScAddr) (edgeType : ScType)
    (trg : ScAddr) : List (ScAddr × ScAddr × ScAddr) :=
  (ctx.filter (fun el => ScType.IsEdge el.type && el.arcBegin == src && el.arcEnd == trg
      && ScType.matchesPattern el.type edgeType)).map
    (fun el => (el.arcBegin, el.addr, el.arcEnd))

/-- Modelled from the spec: the triples produced by
`Iterator3(source type, edge type, target address)`. -/
def Iterator3_a_a_f (ctx : ScMemoryContext) (srcType edgeType : ScType)
    (trg : ScAddr) : List (ScAddr × ScAddr × ScAddr) :=
  (ctx.filter (fun el => ScType.IsEdge el.type && el.arcEnd == trg
      && ScType.matchesPattern el.type edgeType
      && ScType.matchesPattern (ctx.GetElementType el.arcBegin) srcType)).map
    (fun el => (el.arcBegin, el.addr, el.arcEnd))

/-- Modelled from the spec: the triples produced by
`Iterator3(source address, edge type, target type)`. -/
def Iterator3_f_a_a (ctx : ScMemoryContext) (src : ScAddr) (edgeType trgType : ScType) :
    List (ScAddr × ScAddr × ScAddr) :=
  (ctx.filter (fun el => ScType.IsEdge el.type && el.arcBegin == src
      && ScType.matchesPattern el.type edgeType
      && ScType.matchesPattern (ctx.GetElementType el.arcEnd) trgType)).map
    (fun el => (el.arcBegin, el.addr, el.arcEnd))

/-- Modelled from the spec: `ScMemoryContext::HelperCheckArc`, whether the
iterator over edges of the given type between the two elements yields a
triple. -/
def HelperCheckArc (ctx : ScMemoryContext) (src trg : ScAddr) (edgeType : ScType) : Bool :=
  !(ctx.Iterator3_f_a_f src edgeType trg).isEmpty

/-- Modelled from the spec: the address the store gives to its next element,
one that no element holds. -/
def freshAddr (ctx : ScMemoryContext) : ScAddr :=
  ⟨0, (ctx.map (fun el => el.addr.offset)).foldr max 0 + 1⟩

/-- Modelled from the spec: `ScMemoryContext::CreateEdge`; the new edge handle
and the new store, or the empty address and the same store when an endpoint
is not an element. -/
def CreateEdge (ctx : ScMemoryContext) (t : ScType) (src trg : ScAddr) :
    ScAddr × ScMemoryContext :=
  if ctx.IsElement src && ctx.IsElement trg then
    (ctx.freshAddr, ctx ++ [ScElement.mkEdge ctx.freshAddr t src trg])
  else
    (ScAddr.empty, ctx)

/-- Modelled from the spec: one round of the erase cascade: drop every edge
one of whose endpoints is no longer stored. -/
def dropDangling (ctx : ScMemoryContext) : ScMemoryContext :=
  ctx.filter (fun el => !ScType.IsEdge el.type ||
    ((ctx.element? el.arcBegin).isSome && (ctx.element? el.arcEnd).isSome))

/-- Modelled from the spec: `n` rounds of the erase cascade. -/
def dropDanglingN : Nat → ScMemoryContext → ScMemoryContext
  | 0, ctx => ctx
  | n + 1, ctx => dropDanglingN n (dropDangling ctx)

/-- Modelled from the spec: `ScMemoryContext::EraseElement`; the element goes,
and with it every edge left without an endpoint. -/
def EraseElement (ctx : ScMemoryContext) (a : ScAddr) : ScMemoryContext :=
  dropDanglingN ctx.length (ctx.filter (fun el => el.addr != a))

end ScMemoryContext

/-- Modelled from the spec: the catalog of well-known elements
(`scpKeynodes.hpp`): the ten ordinal-role nodes, the order-role
meta-relation and the atomic-operator-type marker. -/
structure Keynodes where
  rrel_1 : ScAddr
  rrel_2 : ScAddr
  rrel_3 : ScAddr
  rrel_4 : ScAddr
  rrel_5 : ScAddr
  rrel_6 : ScAddr
  rrel_7 : ScAddr
  rrel_8 : ScAddr
  rrel_9 : ScAddr
  rrel_10 : ScAddr
  order_role_relation : ScAddr
  scp_operator_atomic_type : ScAddr

namespace Utils

/-! ## `scpUtils.cpp` -/

/-- The function `addToSet` (scpUtils.cpp:18-26). The result is `none` when
the assertion on the created edge fails. -/
def addToSet (ctx : ScMemoryContext) (setAddr elAddr : ScAddr) :
    Option (Bool × ScMemoryContext) :=
  if ctx.HelperCheckArc setAddr elAddr ScType.EdgeAccessConstPosPerm then
    some (false, ctx)
  else
    let (arcAddr, ctx1) := ctx.CreateEdge ScType.EdgeAccessConstPosPerm setAddr elAddr
    if arcAddr.IsValid then some (true, ctx1) else none

/-- The loop `while (it->Next()) ctx->EraseElement(it->Get(1));` of
`removeFromSet`, over the triples the iterator yields. -/
def removeFromSetLoop : List (ScAddr × ScAddr × ScAddr) → ScMemoryContext → ScMemoryContext
  | [], ctx => ctx
  | t :: rest, ctx => removeFromSetLoop rest (ctx.EraseElement t.2.1)

/-- The function `removeFromSet` (scpUtils.cpp:28-36). -/
def removeFromSet (ctx : ScMemoryContext) (setAddr elAddr : ScAddr) :
    Bool × ScMemoryContext :=
  let it := ctx.Iterator3_f_a_f setAddr ScType.EdgeAccessConstPosPerm elAddr
  let result := false
  (result, removeFromSetLoop it ctx)

/-- The loop of `resolveOrderRoleRelation(ctx, arcAddr, relationAddr)` over
the triples the iterator yields; `relationAddr` is the output's current
value. -/
def resolveOrderRoleRelationLoop (K : Keynodes) (ctx : ScMemoryContext) :
    List (ScAddr × ScAddr × ScAddr) → ScAddr → Bool × ScAddr
  | [], relationAddr => (false, relationAddr)
  | t :: rest, relationAddr =>
    if ctx.HelperCheckArc K.order_role_relation t.1 ScType.EdgeAccessConstPosPerm then
      (true, t.1)
    else
      resolveOrderRoleRelationLoop K ctx rest relationAddr

/-- The function `resolveOrderRoleRelation(ctx, arcAddr, relationAddr)`
(scpUtils.cpp:38-51): the returned flag and the value of the output
`relationAddr` after the call. -/
def resolveOrderRoleRelation (K : Keynodes) (ctx : ScMemoryContext) (arcAddr : ScAddr)
    (relationAddr : ScAddr) : Bool × ScAddr :=
  resolveOrderRoleRelationLoop K ctx
    (ctx.Iterator3_a_a_f ScType.NodeConst ScType.EdgeAccess arcAddr) relationAddr

/-- The overload `resolveOrderRoleRelation(ctx, order, relationAddr)`
(scpUtils.cpp:53-102), `order` being the `uint8_t` argument: the returned
flag and the value of the output `relationAddr` after the call. -/
def resolveOrderRoleRelationOrder (K : Keynodes) (_ctx : ScMemoryContext) (order : Nat)
    (_relationAddr : ScAddr) : Bool × ScAddr :=
  match order with
  | 1 => (true, K.rrel_1)
  | 2 => (true, K.rrel_2)
  | 3 => (true, K.rrel_3)
  | 4 => (true, K.rrel_4)
  | 5 => (true, K.rrel_5)
  | 6 => (true, K.rrel_6)
  | 7 => (true, K.rrel_7)
  | 8 => (true, K.rrel_8)
  | 9 => (true, K.rrel_9)
  | 10 => (true, K.rrel_10)
  | _ => (false, ScAddr.empty)

/-- The loop of `resolveOperatorType` over the triples the iterator yields;
`operatorType` is the output's current value. -/
def resolveOperatorTypeLoop (K : Keynodes) (ctx : ScMemoryContext) :
    List (ScAddr × ScAddr × ScAddr) → ScAddr → Bool × ScAddr
  | [], operatorType => (false, operatorType)
  | t :: rest, operatorType =>
    if ctx.HelperCheckArc K.scp_operator_atomic_type t.1 ScType.EdgeAccessConstPosPerm then
      (true, t.1)
    else
      resolveOperatorTypeLoop K ctx rest operatorType

/-- The function `resolveOperatorType` (scpUtils.cpp:104-117): the returned
flag and the value of the output `operatorType` after the call. -/
def resolveOperatorType (K : Keynodes) (ctx : ScMemoryContext) (operatorAddr : ScAddr)
    (operatorType : ScAddr) : Bool × ScAddr :=
  resolveOperatorTypeLoop K ctx
    (ctx.Iterator3_a_a_f ScType.NodeConst ScType.EdgeAccess operatorAddr) operatorType

/-- The function `printSystemIdentifier` (scpUtils.cpp:119-137): the text it
writes to `cout`. The recursion on the endpoints of an edge is bounded by
`fuel`; the result is `none` when the fuel runs out. -/
def printSystemIdentifier : Nat → ScMemoryContext → ScAddr → Option String
  | 0, _, _ => none
  | fuel + 1, ctx, elemAddr =>
    if ScType.IsNode (ctx.GetElementType elemAddr) || ScType.IsLink (ctx.GetElementType elemAddr) then
      let s := ctx.HelperGetSystemIdtf elemAddr
      if s == "" then
        some (toString elemAddr.seg ++ "|" ++ toString elemAddr.offset)
      else
        some s
    else
      match printSystemIdentifier fuel ctx (ctx.GetArcBegin elemAddr) with
      | none => none
      | some b =>
        match printSystemIdentifier fuel ctx (ctx.GetArcEnd elemAddr) with
        | none => none
        | some e => some ("(" ++ b ++ "->" ++ e ++ ")")

/-- The value of a C++ `int` (32-bit two's complement) holding `z`. -/
def toInt32 (z : Int) : Int := (z + 2147483648) % 4294967296 - 2147483648

/-- One line of the input section of `printInfo` (scpUtils.cpp:151-157), for
the triple `t` of the iterator; `idtf` is the text `printSystemIdentifier`
writes for the source. -/
def inputArcLine (ctx : ScMemoryContext) (t : ScAddr × ScAddr × ScAddr) (idtf : String) :
    String :=
  "\t" ++ toString t.2.1.seg ++ "|" ++ toString t.2.1.offset
    ++ (if ScType.BitAnd (ctx.GetElementType t.2.1) sc_type_arc_access then " <- " else " <= ")
    ++ idtf ++ "\n"

/-- One line of the output section of `printInfo` (scpUtils.cpp:166-172), for
the triple `t` of the iterator; `idtf` is the text `printSystemIdentifier`
writes for the target. -/
def outputArcLine (ctx : ScMemoryContext) (t : ScAddr × ScAddr × ScAddr) (idtf : String) :
    String :=
  "\t" ++ toString t.2.1.seg ++ "|" ++ toString t.2.1.offset
    ++ (if ScType.BitAnd (ctx.GetElementType t.2.1) sc_type_arc_access then " -> " else " => ")
    ++ idtf ++ "\n"

/-- The first loop of `printInfo` (scpUtils.cpp:148-158) over the triples the
iterator yields, from the counter value `c_in`: the final counter and the
text written. -/
def printInfoInputLoop (fuel : Nat) (ctx : ScMemoryContext) :
    List (ScAddr × ScAddr × ScAddr) → Int → Option (Int × String)
  | [], c_in => some (c_in, "")
  | t :: rest, c_in =>
    match printSystemIdentifier fuel ctx t.1 with
    | none => none
    | some idtf =>
      match printInfoInputLoop fuel ctx rest (toInt32 (c_in + 1)) with
      | none => none
      | some (c, text) => some (c, inputArcLine ctx t idtf ++ text)

/-- The second loop of `printInfo` (scpUtils.cpp:163-173) over the triples
the iterator yields, from the counter value `c_out`: the final counter and
the text written. -/
def printInfoOutputLoop (fuel : Nat) (ctx : ScMemoryContext) :
    List (ScAddr × ScAddr × ScAddr) → Int → Option (Int × String)
  | [], c_out => some (c_out, "")
  | t :: rest, c_out =>
    match printSystemIdentifier fuel ctx t.2.2 with
    | none => none
    | some idtf =>
      match printInfoOutputLoop fuel ctx rest (toInt32 (c_out + 1)) with
      | none => none
      | some (c, text) => some (c, outputArcLine ctx t idtf ++ text)

/-- The function `printInfo` (scpUtils.cpp:139-175): the text it writes to
`cout` and the store after the call. The result is `none` when the
assertion `IsElement` fails or the fuel of `printSystemIdentifier` runs
out. -/
def printInfo (fuel : Nat) (ctx : ScMemoryContext) (elemAddr : ScAddr) :
    Option (String × ScMemoryContext) :=
  if !ctx.IsElement elemAddr then none
  else
    match printSystemIdentifier fuel ctx elemAddr with
    | none => none
    | some idtf =>
      match printInfoInputLoop fuel ctx (ctx.Iterator3_a_a_f 0 0 elemAddr) 0 with
      | none => none
      | some (c_in, inText) =>
        match printInfoOutputLoop fuel ctx (ctx.Iterator3_f_a_a elemAddr 0 0) 0 with
        | none => none
        | some (c_out, outText) =>
          some (idtf ++ "\n"
                  ++ "Input arcs:\n" ++ inText
                  ++ "Total input arcs: " ++ toString c_in ++ "\n"
                  ++ "Output arcs:\n" ++ outText
                  ++ "Total output arcs: " ++ toString c_out ++ "\n",
                ctx)

/-! ## Notions the properties are stated with -/

/-- The membership edges from `setAddr` to `elAddr`: the stored edges with
this source and this target that are access edges of the membership type
`ScType::EdgeAccessConstPosPerm`, the type `addToSet` creates. -/
def membershipEdges (ctx : ScMemoryContext) (setAddr elAddr : ScAddr) : List ScElement :=
  ctx.filter (fun el => el.arcBegin == setAddr && el.arcEnd == elAddr
    && ScType.matchesPattern el.type ScType.EdgeAccessConstPosPerm)

/-- Whether `node` is marked by `marker`: a membership edge from `marker` to
`node` is stored. -/
def isMarkedBy (ctx : ScMemoryContext) (marker node : ScAddr) : Bool :=
  !(membershipEdges ctx marker node).isEmpty

/-- The constant nodes attached to the element `x` by an access edge (an edge
of a type with the access bit, from the node to `x`), one entry per such
edge, in the store's iteration order. -/
def attachedNodes (ctx : ScMemoryContext) (x : ScAddr) : List ScAddr :=
  (ctx.filter (fun el => ScType.matchesPattern el.type ScType.EdgeAccess && el.arcEnd == x
    && ScType.matchesPattern (ctx.GetElementType el.arcBegin) ScType.NodeConst)).map
    (fun el => el.arcBegin)

/-- The access edges from `src` to `trg`, of whatever constancy, sign and
permanence: the stored edges with this source and this target whose type
has the access bit. -/
def accessEdges (ctx : ScMemoryContext) (src trg : ScAddr) : List ScElement :=
  ctx.filter (fun el => ScType.BitAnd el.type sc_type_arc_access
    && el.arcBegin == src && el.arcEnd == trg)

/-- The nodes, constant or variable, connected to the element `x` by an
access edge from the node to `x`, one entry per such edge, in the store's
iteration order. -/
def connectedNodes (ctx : ScMemoryContext) (x : ScAddr) : List ScAddr :=
  (ctx.filter (fun el => ScType.BitAnd el.type sc_type_arc_access && el.arcEnd == x
    && ScType.IsNode (ctx.GetElementType el.arcBegin))).map (fun el => el.arcBegin)

/-- The incoming edges of the element `x`: the stored edges whose target is
`x`. -/
def incomingEdges (ctx : ScMemoryContext) (x : ScAddr) : List ScElement :=
  ctx.filter (fun el => ScType.IsEdge el.type && el.arcEnd == x)

/-- The outgoing edges of the element `x`: the stored edges whose source is
`x`. -/
def outgoingEdges (ctx : ScMemoryContext) (x : ScAddr) : List ScElement :=
  ctx.filter (fun el => ScType.IsEdge el.type && el.arcBegin == x)

/-- The store is well formed with respect to the nesting depth `rank`: every
element is either a node or a link and not an edge, or an edge and neither
node nor link, and then both endpoints are elements of the store and lie
strictly below the edge in the nesting depth. -/
def WellFormedBy (rank : ScAddr → Nat) (ctx : ScMemoryContext) : Prop :=
  ∀ el ∈ ctx,
    ((ScType.IsNode el.type || ScType.IsLink el.type) = true ∧ ScType.IsEdge el.type = false) ∨
    ((ScType.IsNode el.type || ScType.IsLink el.type) = false ∧ ScType.IsEdge el.type = true
      ∧ ctx.IsElement el.arcBegin = true ∧ ctx.IsElement el.arcEnd = true
      ∧ rank el.arcBegin < rank el.addr ∧ rank el.arcEnd < rank el.addr)

/-- The store is well formed: the nesting of edge endpoints is finite and
acyclic, that is, some nesting depth exists. -/
def WellFormed (ctx : ScMemoryContext) : Prop :=
  ∃ rank : ScAddr → Nat, WellFormedBy rank ctx

end Utils

/-- The `k`-th ordinal-role node of the catalog, for `k` from 1 to 10 (the
empty address for any other `k`). -/
def Keynodes.rrel (K : Keynodes) (k : Nat) : ScAddr :=
  ([K.rrel_1, K.rrel_2, K.rrel_3, K.rrel_4, K.rrel_5, K.rrel_6, K.rrel_7, K.rrel_8,
    K.rrel_9, K.rrel_10].get? (k - 1)).getD ScAddr.empty

/-! ## Sample stores -/

namespace Sample

/-- A catalog: `rrel_k` at offset `k`, the order-role meta-relation at offset
11 and the atomic-operator-type marker at offset 12. -/
def K : Keynodes :=
  { rrel_1 := ⟨0, 1⟩, rrel_2 := ⟨0, 2⟩, rrel_3 := ⟨0, 3⟩, rrel_4 := ⟨0, 4⟩, rrel_5 := ⟨0, 5⟩,
    rrel_6 := ⟨0, 6⟩, rrel_7 := ⟨0, 7⟩, rrel_8 := ⟨0, 8⟩, rrel_9 := ⟨0, 9⟩,
    rrel_10 := ⟨0, 10⟩, order_role_relation := ⟨0, 11⟩,
    scp_operator_atomic_type := ⟨0, 12⟩ }

/-- An operator node. -/
def op : ScAddr := ⟨0, 13⟩

/-- An argument node. -/
def arg : ScAddr := ⟨0, 14⟩

/-- The edge from the operator to its argument. -/
def argEdge : ScAddr := ⟨0, 15⟩

/-- An operator type node. -/
def opType : ScAddr := ⟨0, 20⟩

/-- A store with the catalog nodes, an operator, its argument, the edge
between them, and `rrel_3` attached to that edge by an access edge; no edge
leaves the order-role meta-relation. -/
def roleUnmarked : ScMemoryContext :=
  [ScElement.mkNode K.rrel_1 ScType.NodeConst "rrel_1",
   ScElement.mkNode K.rrel_2 ScType.NodeConst "rrel_2",
   ScElement.mkNode K.rrel_3 ScType.NodeConst "rrel_3",
   ScElement.mkNode K.rrel_4 ScType.NodeConst "rrel_4",
   ScElement.mkNode K.rrel_5 ScType.NodeConst "rrel_5",
   ScElement.mkNode K.rrel_6 ScType.NodeConst "rrel_6",
   ScElement.mkNode K.rrel_7 ScType.NodeConst "rrel_7",
   ScElement.mkNode K.rrel_8 ScType.NodeConst "rrel_8",
   ScElement.mkNode K.rrel_9 ScType.NodeConst "rrel_9",
   ScElement.mkNode K.rrel_10 ScType.NodeConst "rrel_10",
   ScElement.mkNode K.order_role_relation ScType.NodeConst "order_role_relation",
   ScElement.mkNode K.scp_operator_atomic_type ScType.NodeConst "scp_operator_atomic_type",
   ScElement.mkNode op ScType.NodeConst "",
   ScElement.mkNode arg ScType.NodeConst "",
   ScElement.mkEdge argEdge ScType.EdgeAccessConstPosPerm op arg,
   ScElement.mkEdge ⟨0, 16⟩ ScType.EdgeAccessConstPosPerm K.rrel_3 argEdge]

/-- The store `roleUnmarked` with `rrel_3` marked by the order-role
meta-relation. -/
def roleMarked : ScMemoryContext :=
  roleUnmarked ++
    [ScElement.mkEdge ⟨0, 17⟩ ScType.EdgeAccessConstPosPerm K.order_role_relation K.rrel_3]

/-- The store `roleMarked` with an operator type node attached to the
operator and marked by the atomic-operator-type marker. -/
def typedOperator : ScMemoryContext :=
  roleMarked ++
    [ScElement.mkNode opType ScType.NodeConst "searchElStr3",
     ScElement.mkEdge ⟨0, 21⟩ ScType.EdgeAccessConstPosPerm opType op,
     ScElement.mkEdge ⟨0, 22⟩ ScType.EdgeAccessConstPosPerm K.scp_operator_atomic_type opType]

/-- A variable node. -/
def v : ScAddr := ⟨0, 18⟩

/-- The store `roleUnmarked` with `rrel_3` marked by the order-role
meta-relation through a temporary access edge. -/
def roleTempMarked : ScMemoryContext :=
  roleUnmarked ++
    [ScElement.mkEdge ⟨0, 17⟩ ScType.EdgeAccessConstPosTemp K.order_role_relation K.rrel_3]

/-- The store `roleUnmarked` with a variable node attached to the argument
edge and marked by the order-role meta-relation, both through membership
edges. -/
def roleVariable : ScMemoryContext :=
  roleUnmarked ++
    [ScElement.mkNode v ScType.NodeVar "",
     ScElement.mkEdge ⟨0, 19⟩ ScType.EdgeAccessConstPosPerm v argEdge,
     ScElement.mkEdge ⟨0, 23⟩ ScType.EdgeAccessConstPosPerm K.order_role_relation v]

/-- The store `roleMarked` with a variable node attached to the operator and
marked by the atomic-operator-type marker, both through membership edges. -/
def operatorTypeVariable : ScMemoryContext :=
  roleMarked ++
    [ScElement.mkNode opType ScType.NodeVar "searchElStr3",
     ScElement.mkEdge ⟨0, 21⟩ ScType.EdgeAccessConstPosPerm opType op,
     ScElement.mkEdge ⟨0, 22⟩ ScType.EdgeAccessConstPosPerm K.scp_operator_atomic_type opType]

/-- The store `roleMarked` with a constant type node attached to the operator
and marked by the atomic-operator-type marker through a temporary access
edge. -/
def operatorTypeTempMarked : ScMemoryContext :=
  roleMarked ++
    [ScElement.mkNode opType ScType.NodeConst "searchElStr3",
     ScElement.mkEdge ⟨0, 21⟩ ScType.EdgeAccessConstPosPerm opType op,
     ScElement.mkEdge ⟨0, 22⟩ ScType.EdgeAccessConstPosTemp K.scp_operator_atomic_type opType]

/-- A set node. -/
def S : ScAddr := ⟨0, 1⟩

/-- An element node. -/
def E : ScAddr := ⟨0, 2⟩

/-- A store holding the two nodes `S` and `E` and no edge. -/
def twoNodes : ScMemoryContext :=
  [ScElement.mkNode S ScType.NodeConst "set", ScElement.mkNode E ScType.NodeConst ""]

/-- A store holding `S`, `E` and one membership edge from `S` to `E`. -/
def oneMember : ScMemoryContext :=
  twoNodes ++ [ScElement.mkEdge ⟨0, 3⟩ ScType.EdgeAccessConstPosPerm S E]

/-- A store holding `S`, `E` and two membership edges from `S` to `E`. -/
def twoMembers : ScMemoryContext :=
  oneMember ++ [ScElement.mkEdge ⟨0, 4⟩ ScType.EdgeAccessConstPosPerm S E]

/-- A store holding `S`, `E` and one temporary access edge from `S` to
`E`. -/
def tempMember : ScMemoryContext :=
  twoNodes ++ [ScElement.mkEdge ⟨0, 3⟩ ScType.EdgeAccessConstPosTemp S E]

/-- The store `tempMember` after `addToSet`: the temporary access edge and
the new membership edge from `S` to `E`. -/
def tempAndMember : ScMemoryContext :=
  tempMember ++ [ScElement.mkEdge ⟨0, 4⟩ ScType.EdgeAccessConstPosPerm S E]

/-- The element whose neighbourhood is printed. -/
def x : ScAddr := ⟨0, 1⟩

/-- A store in which `x` has exactly two incoming edges (one access edge, one
common edge) and exactly three outgoing edges, one of them to an edge. -/
def neighbourhood : ScMemoryContext :=
  [ScElement.mkNode x ScType.NodeConst "x",
   ScElement.mkNode ⟨0, 2⟩ ScType.NodeConst "a",
   ScElement.mkNode ⟨0, 3⟩ ScType.NodeConst "",
   ScElement.mkEdge ⟨0, 4⟩ ScType.EdgeAccessConstPosPerm ⟨0, 2⟩ x,
   ScElement.mkEdge ⟨0, 5⟩ ScType.EdgeDCommonConst ⟨0, 3⟩ x,
   ScElement.mkEdge ⟨0, 6⟩ ScType.EdgeAccessConstPosPerm x ⟨0, 2⟩,
   ScElement.mkEdge ⟨0, 7⟩ ScType.EdgeDCommonConst x ⟨0, 3⟩,
   ScElement.mkEdge ⟨0, 8⟩ ScType.EdgeAccessConstPosPerm x ⟨0, 4⟩]

/-- A store in which `x` has `count` incoming membership edges, all from the
node `a`, under pairwise different addresses, and no outgoing edge. -/
def crowd (count : Nat) : ScMemoryContext :=
  [ScElement.mkNode x ScType.NodeConst "x", ScElement.mkNode ⟨0, 2⟩ ScType.NodeConst "a"]
    ++ (List.range count).map (fun i =>
      ScElement.mkEdge ⟨1 + i / 65536, i % 65536⟩ ScType.EdgeAccessConstPosPerm ⟨0, 2⟩ x)

end Sample

/-! ## Properties of the store model -/

namespace ScType

theorem isEdge_of_matches_EdgeAccessConstPosPerm (t : ScType)
    (h : matchesPattern t EdgeAccessConstPosPerm = true) : IsEdge t = true := by
  have h1 : t &&& 2224 = 2224 := by
    simpa [matchesPattern, EdgeAccessConstPosPerm, sc_type_arc_access, sc_type_const,
      sc_type_arc_pos, sc_type_arc_perm] using h
  have h2 : t &&& 16 = 16 := by
    have h3 : (t &&& 2224) &&& 16 = t &&& 16 := by
      rw [Nat.land_assoc]; rfl
    rw [← h3, h1]; rfl
  have h4 : (t &&& 28) &&& 16 = t &&& 16 := by
    rw [Nat.land_assoc]; rfl
  have h5 : t &&& 28 ≠ 0 := by
    intro h0
    rw [h0, h2] at h4
    exact absurd h4 (by decide)
  simpa [IsEdge, BitAnd, sc_type_arc_mask, sc_type_arc_access, sc_type_arc_common,
    sc_type_edge_common] using h5

theorem matchesPattern_self (t : ScType) : matchesPattern t t = true := by
  simp [matchesPattern]

end ScType

namespace ScMemoryContext

theorem offset_le_foldr_max (ctx : ScMemoryContext) (el : ScElement) (h : el ∈ ctx) :
    el.addr.offset ≤ (ctx.map (fun el => el.addr.offset)).foldr max 0 := by
  induction ctx with
  | nil => simp at h
  | cons hd tl ih =>
    simp only [List.map_cons, List.foldr_cons]
    rcases List.mem_cons.mp h with rfl | h
    · exact le_max_left _ _
    · exact le_trans (ih h) (le_max_right _ _)

theorem freshAddr_ne (ctx : ScMemoryContext) (el : ScElement) (h : el ∈ ctx) :
    el.addr ≠ ctx.freshAddr := by
  intro heq
  have hle := offset_le_foldr_max ctx el h
  have : el.addr.offset = ctx.freshAddr.offset := by rw [heq]
  simp only [freshAddr] at this
  omega

theorem freshAddr_isValid (ctx : ScMemoryContext) : ctx.freshAddr.IsValid = true := by
  simp [ScAddr.IsValid, freshAddr, ScAddr.empty]

theorem helperCheckArc_eq (ctx : ScMemoryContext) (src trg : ScAddr) :
    ctx.HelperCheckArc src trg ScType.EdgeAccessConstPosPerm
      = !(Utils.membershipEdges ctx src trg).isEmpty := by
  have hfilter : ctx.filter (fun el => ScType.IsEdge el.type && el.arcBegin == src
        && el.arcEnd == trg && ScType.matchesPattern el.type ScType.EdgeAccessConstPosPerm)
      = Utils.membershipEdges ctx src trg := by
    unfold Utils.membershipEdges
    apply List.filter_congr
    intro el _
    cases hm : ScType.matchesPattern el.type ScType.EdgeAccessConstPosPerm
    · simp
    · simp [ScType.isEdge_of_matches_EdgeAccessConstPosPerm el.type hm]
  unfold HelperCheckArc Iterator3_f_a_f
  rw [hfilter]
  cases Utils.membershipEdges ctx src trg <;> simp

theorem iterator3_f_a_f_eq (ctx : ScMemoryContext) (src trg : ScAddr) :
    ctx.Iterator3_f_a_f src ScType.EdgeAccessConstPosPerm trg
      = (Utils.membershipEdges ctx src trg).map (fun el => (el.arcBegin, el.addr, el.arcEnd)) := by
  have hfilter : ctx.filter (fun el => ScType.IsEdge el.type && el.arcBegin == src
        && el.arcEnd == trg && ScType.matchesPattern el.type ScType.EdgeAccessConstPosPerm)
      = Utils.membershipEdges ctx src trg := by
    unfold Utils.membershipEdges
    apply List.filter_congr
    intro el _
    cases hm : ScType.matchesPattern el.type ScType.EdgeAccessConstPosPerm
    · simp
    · simp [ScType.isEdge_of_matches_EdgeAccessConstPosPerm el.type hm]
  unfold Iterator3_f_a_f
  rw [hfilter]

theorem mem_dropDanglingN (n : Nat) (ctx : ScMemoryContext) (el : ScElement)
    (h : el ∈ dropDanglingN n ctx) : el ∈ ctx := by
  induction n generalizing ctx with
  | zero => exact h
  | succ k ih =>
    have h1 := ih (dropDangling ctx) h
    exact (List.mem_filter.mp h1).1

theorem mem_eraseElement (ctx : ScMemoryContext) (a : ScAddr) (el : ScElement)
    (h : el ∈ ctx.EraseElement a) : el ∈ ctx ∧ el.addr ≠ a := by
  have h1 := mem_dropDanglingN _ _ el h
  have h2 := List.mem_filter.mp h1
  exact ⟨h2.1, by simpa using h2.2⟩

end ScMemoryContext

namespace Utils

theorem mem_removeFromSetLoop (l : List (ScAddr × ScAddr × ScAddr)) (ctx : ScMemoryContext)
    (el : ScElement) (h : el ∈ removeFromSetLoop l ctx) :
    el ∈ ctx ∧ ∀ t ∈ l, el.addr ≠ t.2.1 := by
  induction l generalizing ctx with
  | nil => exact ⟨h, by simp⟩
  | cons t rest ih =>
    have h1 := ih (ctx.EraseElement t.2.1) h
    have h2 := ScMemoryContext.mem_eraseElement ctx t.2.1 el h1.1
    refine ⟨h2.1, ?_⟩
    intro u hu
    rcases List.mem_cons.mp hu with rfl | hu
    · exact h2.2
    · exact h1.2 u hu

theorem membershipEdges_removeFromSet (ctx : ScMemoryContext) (setAddr elAddr : ScAddr) :
    membershipEdges (removeFromSet ctx setAddr elAddr).2 setAddr elAddr = [] := by
  rw [List.eq_nil_iff_forall_not_mem]
  intro el hel
  have hmem := List.mem_filter.mp hel
  have hloop := mem_removeFromSetLoop _ ctx el hmem.1
  have hin : el ∈ membershipEdges ctx setAddr elAddr := List.mem_filter.mpr ⟨hloop.1, hmem.2⟩
  have ht : (el.arcBegin, el.addr, el.arcEnd)
      ∈ ctx.Iterator3_f_a_f setAddr ScType.EdgeAccessConstPosPerm elAddr := by
    rw [ScMemoryContext.iterator3_f_a_f_eq]
    exact List.mem_map.mpr ⟨el, hin, rfl⟩
  exact hloop.2 _ ht rfl

theorem membershipEdges_append (ctx : ScMemoryContext) (arc : ScElement) (setAddr elAddr : ScAddr)
    (hb : arc.arcBegin = setAddr) (he : arc.arcEnd = elAddr)
    (ht : arc.type = ScType.EdgeAccessConstPosPerm) :
    membershipEdges (ctx ++ [arc]) setAddr elAddr = membershipEdges ctx setAddr elAddr ++ [arc] := by
  unfold membershipEdges
  rw [List.filter_append]
  congr 1
  simp [hb, he, ht, ScType.matchesPattern_self]

theorem addToSet_of_present (ctx : ScMemoryContext) (setAddr elAddr : ScAddr)
    (h : membershipEdges ctx setAddr elAddr ≠ []) :
    addToSet ctx setAddr elAddr = some (false, ctx) := by
  unfold addToSet
  rw [ScMemoryContext.helperCheckArc_eq]
  cases hl : membershipEdges ctx setAddr elAddr with
  | nil => exact absurd hl h
  | cons a l => simp

theorem addToSet_of_absent (ctx : ScMemoryContext) (setAddr elAddr : ScAddr)
    (hS : ctx.IsElement setAddr = true) (hE : ctx.IsElement elAddr = true)
    (h : membershipEdges ctx setAddr elAddr = []) :
    addToSet ctx setAddr elAddr = some (true, ctx ++
      [ScElement.mkEdge ctx.freshAddr ScType.EdgeAccessConstPosPerm setAddr elAddr]) := by
  unfold addToSet
  rw [ScMemoryContext.helperCheckArc_eq, h]
  simp [ScMemoryContext.CreateEdge, hS, hE, ScMemoryContext.freshAddr_isValid]

theorem membershipEdges_of_addToSet_true (ctx ctx1 : ScMemoryContext) (setAddr elAddr : ScAddr)
    (h : addToSet ctx setAddr elAddr = some (true, ctx1)) :
    membershipEdges ctx1 setAddr elAddr ≠ [] := by
  unfold addToSet at h
  rw [ScMemoryContext.helperCheckArc_eq] at h
  cases hl : membershipEdges ctx setAddr elAddr with
  | cons a l => simp [hl] at h
  | nil =>
    simp only [hl, List.isEmpty_nil, Bool.not_true, Bool.false_eq_true, if_false] at h
    unfold ScMemoryContext.CreateEdge at h
    split at h
    · simp only [ScMemoryContext.freshAddr_isValid, if_true, Option.some.injEq,
        Prod.mk.injEq, true_and] at h
      rw [← h, membershipEdges_append ctx _ setAddr elAddr rfl rfl rfl]
      simp
    · simp [ScAddr.IsValid] at h

/-! ## The set membership manager -/

/-- C1 as stated fails: the store `Sample.tempMember` holds an access edge
from `S` to `E`, a temporary one, yet `addToSet` returns true and adds a
second access edge from `S` to `E`. -/
theorem addToSet_contract_counterexample :
    accessEdges Sample.tempMember Sample.S Sample.E
      = [ScElement.mkEdge ⟨0, 3⟩ ScType.EdgeAccessConstPosTemp Sample.S Sample.E] ∧
    addToSet Sample.tempMember Sample.S Sample.E = some (true, Sample.tempAndMember) ∧
    (accessEdges Sample.tempAndMember Sample.S Sample.E).length = 2 := by
  decide

/-- C1, amended: for a set and an element of the store, `addToSet` returns
false and leaves the store unchanged when a constant positive permanent
access edge (a membership edge) from the set to the element exists;
otherwise it returns true and the new store is the old one, every element
unchanged, followed by exactly one new element: a constant positive
permanent access edge from the set to the element, under an address no
stored element holds. -/
theorem addToSet_contract (ctx : ScMemoryContext) (setAddr elAddr : ScAddr)
    (hS : ctx.IsElement setAddr = true) (hE : ctx.IsElement elAddr = true) :
    (membershipEdges ctx setAddr elAddr ≠ [] → addToSet ctx setAddr elAddr = some (false, ctx)) ∧
    (membershipEdges ctx setAddr elAddr = [] →
      ∃ arc : ScElement, addToSet ctx setAddr elAddr = some (true, ctx ++ [arc])
        ∧ arc.arcBegin = setAddr ∧ arc.arcEnd = elAddr
        ∧ arc.type = ScType.EdgeAccessConstPosPerm
        ∧ (∀ el ∈ ctx, el.addr ≠ arc.addr)
        ∧ membershipEdges (ctx ++ [arc]) setAddr elAddr = [arc]) := by
  refine ⟨addToSet_of_present ctx setAddr elAddr, ?_⟩
  intro h
  refine ⟨ScElement.mkEdge ctx.freshAddr ScType.EdgeAccessConstPosPerm setAddr elAddr,
    addToSet_of_absent ctx setAddr elAddr hS hE h, rfl, rfl, rfl, ?_, ?_⟩
  · intro el hel
    exact ScMemoryContext.freshAddr_ne ctx el hel
  · rw [membershipEdges_append ctx _ setAddr elAddr rfl rfl rfl, h]
    rfl

/-- Witness of the amended C1 on the store `Sample.twoNodes`: the call adds one edge. -/
theorem addToSet_contract_witness :
    Sample.twoNodes.IsElement Sample.S = true ∧ Sample.twoNodes.IsElement Sample.E = true ∧
    membershipEdges Sample.twoNodes Sample.S Sample.E = [] ∧
    ∃ arc : ScElement,
      addToSet Sample.twoNodes Sample.S Sample.E = some (true, Sample.twoNodes ++ [arc])
        ∧ arc.arcBegin = Sample.S ∧ arc.arcEnd = Sample.E :=
  ⟨by decide, by decide, by decide,
    match (addToSet_contract Sample.twoNodes Sample.S Sample.E (by decide) (by decide)).2
        (by decide) with
    | ⟨arc, h1, h2, h3, _⟩ => ⟨arc, h1, h2, h3⟩⟩

/-- C2 as stated fails: on the store `Sample.twoMembers`, which holds two
membership edges from `S` to `E`, both calls of `addToSet` return false and
the store still holds two membership edges from `S` to `E`, not one. -/
theorem addToSet_twice_counterexample :
    ((addToSet Sample.twoMembers Sample.S Sample.E).bind (fun r1 =>
      (addToSet r1.2 Sample.S Sample.E).map (fun r2 =>
        (r1.1, r2.1, (membershipEdges r2.2 Sample.S Sample.E).length))))
      = some (false, false, 2) := by
  decide

/-- C2, amended: for a set and an element of the store, `addToSet` followed
by `addToSet` again completes, the second call returns false and leaves the
store as the first call left it, and the number of membership edges from
the set to the element in that store is the number before the first call,
or 1 when there was none: exactly 1 whenever the store held at most one
such edge before the first call. -/
theorem addToSet_twice (ctx : ScMemoryContext) (setAddr elAddr : ScAddr)
    (hS : ctx.IsElement setAddr = true) (hE : ctx.IsElement elAddr = true) :
    ∃ (r : Bool) (ctx1 : ScMemoryContext),
      addToSet ctx setAddr elAddr = some (r, ctx1)
        ∧ addToSet ctx1 setAddr elAddr = some (false, ctx1)
        ∧ (membershipEdges ctx1 setAddr elAddr).length
            = max 1 (membershipEdges ctx setAddr elAddr).length
        ∧ ((membershipEdges ctx setAddr elAddr).length ≤ 1 →
            (membershipEdges ctx1 setAddr elAddr).length = 1) := by
  cases hl : membershipEdges ctx setAddr elAddr with
  | nil =>
    have hlen : (membershipEdges (ctx ++ [ScElement.mkEdge ctx.freshAddr
        ScType.EdgeAccessConstPosPerm setAddr elAddr]) setAddr elAddr).length = 1 := by
      rw [membershipEdges_append ctx _ setAddr elAddr rfl rfl rfl, hl]
      rfl
    refine ⟨true, _, addToSet_of_absent ctx setAddr elAddr hS hE hl, ?_, ?_, fun _ => hlen⟩
    · apply addToSet_of_present
      rw [membershipEdges_append ctx _ setAddr elAddr rfl rfl rfl]
      simp
    · rw [hlen]
      rfl
  | cons a l =>
    have hne : membershipEdges ctx setAddr elAddr ≠ [] := by simp [hl]
    refine ⟨false, ctx, addToSet_of_present ctx setAddr elAddr hne,
      addToSet_of_present ctx setAddr elAddr hne, ?_, ?_⟩
    · rw [hl]
      simp only [List.length_cons]
      omega
    · intro hle
      rw [hl]
      simp only [List.length_cons] at hle ⊢
      omega

/-- Witness of the amended C2 on the store `Sample.twoNodes`. -/
theorem addToSet_twice_witness :
    Sample.twoNodes.IsElement Sample.S = true ∧ Sample.twoNodes.IsElement Sample.E = true ∧
    ∃ (r : Bool) (ctx1 : ScMemoryContext),
      addToSet Sample.twoNodes Sample.S Sample.E = some (r, ctx1)
        ∧ addToSet ctx1 Sample.S Sample.E = some (false, ctx1)
        ∧ (membershipEdges ctx1 Sample.S Sample.E).length = 1 :=
  ⟨by decide, by decide,
    match addToSet_twice Sample.twoNodes Sample.S Sample.E (by decide) (by decide) with
    | ⟨r, ctx1, h1, h2, _, h4⟩ => ⟨r, ctx1, h1, h2, h4 (by decide)⟩⟩

/-- C3 as stated fails: on the store `Sample.tempMember`, which holds a
temporary access edge from `S` to `E`, `addToSet` succeeds, and
`removeFromSet` on the resulting store erases the membership edge only: one
access edge from `S` to `E` is left. -/
theorem removeFromSet_after_addToSet_counterexample :
    (addToSet Sample.tempMember Sample.S Sample.E).map (fun r =>
      (r.1, (removeFromSet r.2 Sample.S Sample.E).2,
        (accessEdges (removeFromSet r.2 Sample.S Sample.E).2 Sample.S Sample.E).length))
      = some (true, Sample.tempMember, 1) := by
  decide

/-- C3, amended: when `addToSet` succeeds (returns true), the store it leaves
holds a constant positive permanent access edge (a membership edge) from
the set to the element, and `removeFromSet` on that store leaves zero such
edges from the set to the element; it leaves zero access edges of any type
from the set to the element when every access edge from the set to the
element in that store is a membership edge. -/
theorem removeFromSet_after_addToSet (ctx ctx1 : ScMemoryContext) (setAddr elAddr : ScAddr)
    (h : addToSet ctx setAddr elAddr = some (true, ctx1)) :
    membershipEdges ctx1 setAddr elAddr ≠ [] ∧
    (membershipEdges (removeFromSet ctx1 setAddr elAddr).2 setAddr elAddr).length = 0 ∧
    ((∀ el ∈ accessEdges ctx1 setAddr elAddr,
        ScType.matchesPattern el.type ScType.EdgeAccessConstPosPerm = true) →
      (accessEdges (removeFromSet ctx1 setAddr elAddr).2 setAddr elAddr).length = 0) := by
  refine ⟨membershipEdges_of_addToSet_true ctx ctx1 setAddr elAddr h, ?_, ?_⟩
  · rw [membershipEdges_removeFromSet]
    rfl
  · intro hall
    rw [List.length_eq_zero, List.eq_nil_iff_forall_not_mem]
    intro el hel
    have hmem := List.mem_filter.mp hel
    have hloop := mem_removeFromSetLoop _ ctx1 el hmem.1
    have hin : el ∈ accessEdges ctx1 setAddr elAddr := List.mem_filter.mpr ⟨hloop.1, hmem.2⟩
    have hty := hall el hin
    have hends : (el.arcBegin == setAddr) = true ∧ (el.arcEnd == elAddr) = true := by
      have := hmem.2
      simp only [Bool.and_eq_true] at this
      exact ⟨this.1.2, this.2⟩
    have hmem2 : el ∈ membershipEdges (removeFromSet ctx1 setAddr elAddr).2 setAddr elAddr := by
      apply List.mem_filter.mpr
      refine ⟨hmem.1, ?_⟩
      simp only [Bool.and_eq_true]
      exact ⟨⟨hends.1, hends.2⟩, hty⟩
    rw [membershipEdges_removeFromSet] at hmem2
    exact absurd hmem2 (List.not_mem_nil el)

/-- Witness of the amended C3 on the store `Sample.twoNodes`, which
`addToSet` turns into `Sample.oneMember`. -/
theorem removeFromSet_after_addToSet_witness :
    addToSet Sample.twoNodes Sample.S Sample.E = some (true, Sample.oneMember) ∧
    membershipEdges Sample.oneMember Sample.S Sample.E ≠ [] ∧
    (membershipEdges (removeFromSet Sample.oneMember Sample.S Sample.E).2
      Sample.S Sample.E).length = 0 ∧
    (accessEdges (removeFromSet Sample.oneMember Sample.S Sample.E).2
      Sample.S Sample.E).length = 0 :=
  ⟨by decide,
    (removeFromSet_after_addToSet Sample.twoNodes Sample.oneMember Sample.S Sample.E
      (by decide)).1,
    (removeFromSet_after_addToSet Sample.twoNodes Sample.oneMember Sample.S Sample.E
      (by decide)).2.1,
    (removeFromSet_after_addToSet Sample.twoNodes Sample.oneMember Sample.S Sample.E
      (by decide)).2.2 (by decide)⟩

/-- C4: when the store holds no membership edge from the set to the element,
`removeFromSet` returns (it raises no error), reports false and leaves the
store exactly as it was. -/
theorem removeFromSet_absent (ctx : ScMemoryContext) (setAddr elAddr : ScAddr)
    (h : membershipEdges ctx setAddr elAddr = []) :
    removeFromSet ctx setAddr elAddr = (false, ctx) := by
  unfold removeFromSet
  rw [ScMemoryContext.iterator3_f_a_f_eq, h]
  rfl

/-- Witness of C4 on the store `Sample.twoNodes`. -/
theorem removeFromSet_absent_witness :
    membershipEdges Sample.twoNodes Sample.S Sample.E = [] ∧
    removeFromSet Sample.twoNodes Sample.S Sample.E = (false, Sample.twoNodes) :=
  ⟨by decide, removeFromSet_absent Sample.twoNodes Sample.S Sample.E (by decide)⟩

/-- On the store `Sample.twoMembers` the call erases both membership edges
and still returns false. -/
theorem removeFromSet_twoMembers :
    removeFromSet Sample.twoMembers Sample.S Sample.E = (false, Sample.twoNodes) := by
  decide

/-- C5: `removeFromSet` returns false on every store, set and element, also
when membership edges from the set to the element existed; whatever their
number before the call, none is left after it, so the flag is the same
whether edges were erased or not. -/
theorem removeFromSet_returns_false (ctx : ScMemoryContext) (setAddr elAddr : ScAddr) :
    (removeFromSet ctx setAddr elAddr).1 = false ∧
    membershipEdges (removeFromSet ctx setAddr elAddr).2 setAddr elAddr = [] :=
  ⟨rfl, membershipEdges_removeFromSet ctx setAddr elAddr⟩

/-! ## The resolvers -/

theorem iterator3_a_a_f_sources (ctx : ScMemoryContext) (x : ScAddr) :
    (ctx.Iterator3_a_a_f ScType.NodeConst ScType.EdgeAccess x).map (fun t => t.1)
      = attachedNodes ctx x := by
  have hedge : ∀ t : ScType, ScType.matchesPattern t ScType.EdgeAccess = true →
      ScType.IsEdge t = true := by
    intro t h
    have h2 : t &&& 16 = 16 := by
      simpa [ScType.matchesPattern, ScType.EdgeAccess, sc_type_arc_access] using h
    have h4 : (t &&& 28) &&& 16 = t &&& 16 := by
      rw [Nat.land_assoc]; rfl
    have h5 : t &&& 28 ≠ 0 := by
      intro h0
      rw [h0, h2] at h4
      exact absurd h4 (by decide)
    simpa [ScType.IsEdge, ScType.BitAnd, sc_type_arc_mask, sc_type_arc_access,
      sc_type_arc_common, sc_type_edge_common] using h5
  have hfilter : ctx.filter (fun el => ScType.IsEdge el.type && el.arcEnd == x
        && ScType.matchesPattern el.type ScType.EdgeAccess
        && ScType.matchesPattern (ctx.GetElementType el.arcBegin) ScType.NodeConst)
      = ctx.filter (fun el => ScType.matchesPattern el.type ScType.EdgeAccess
        && el.arcEnd == x
        && ScType.matchesPattern (ctx.GetElementType el.arcBegin) ScType.NodeConst) := by
    apply List.filter_congr
    intro el _
    cases hm : ScType.matchesPattern el.type ScType.EdgeAccess
    · simp
    · simp [hedge el.type hm]
  unfold ScMemoryContext.Iterator3_a_a_f attachedNodes
  rw [hfilter, List.map_map]
  rfl

theorem resolveOrderRoleRelationLoop_eq (K : Keynodes) (ctx : ScMemoryContext)
    (l : List (ScAddr × ScAddr × ScAddr)) (relationAddr : ScAddr) :
    resolveOrderRoleRelationLoop K ctx l relationAddr
      = match (l.map (fun t => t.1)).find? (isMarkedBy ctx K.order_role_relation) with
        | some n => (true, n)
        | none => (false, relationAddr) := by
  induction l with
  | nil => rfl
  | cons t rest ih =>
    unfold resolveOrderRoleRelationLoop
    rw [ScMemoryContext.helperCheckArc_eq]
    simp only [List.map_cons, List.find?_cons]
    cases hm : isMarkedBy ctx K.order_role_relation t.1
    · unfold isMarkedBy at hm
      rw [hm, ih]
      simp
    · unfold isMarkedBy at hm
      rw [hm]
      simp

theorem resolveOperatorTypeLoop_eq (K : Keynodes) (ctx : ScMemoryContext)
    (l : List (ScAddr × ScAddr × ScAddr)) (operatorType : ScAddr) :
    resolveOperatorTypeLoop K ctx l operatorType
      = match (l.map (fun t => t.1)).find? (isMarkedBy ctx K.scp_operator_atomic_type) with
        | some n => (true, n)
        | none => (false, operatorType) := by
  induction l with
  | nil => rfl
  | cons t rest ih =>
    unfold resolveOperatorTypeLoop
    rw [ScMemoryContext.helperCheckArc_eq]
    simp only [List.map_cons, List.find?_cons]
    cases hm : isMarkedBy ctx K.scp_operator_atomic_type t.1
    · unfold isMarkedBy at hm
      rw [hm, ih]
      simp
    · unfold isMarkedBy at hm
      rw [hm]
      simp

theorem find?_of_unique {α : Type} (p : α → Bool) (l : List α) (a : α) (ha : a ∈ l)
    (hp : p a = true) (huniq : ∀ b ∈ l, p b = true → b = a) : l.find? p = some a := by
  induction l with
  | nil => simp at ha
  | cons hd tl ih =>
    rw [List.find?_cons]
    cases hhd : p hd
    · simp only
      apply ih
      · rcases List.mem_cons.mp ha with rfl | h
        · rw [hp] at hhd; exact absurd hhd (by decide)
        · exact h
      · intro b hb hpb
        exact huniq b (List.mem_cons_of_mem _ hb) hpb
    · simp only
      rw [huniq hd (List.mem_cons_self _ _) hhd]

theorem resolveOrderRoleRelationOrder_eq (K : Keynodes) (ctx : ScMemoryContext)
    (order : Nat) (relationAddr : ScAddr) :
    resolveOrderRoleRelationOrder K ctx order relationAddr
      = (if 1 ≤ order ∧ order ≤ 10 then (true, K.rrel order) else (false, ScAddr.empty)) := by
  by_cases h10 : order ≤ 10
  · interval_cases order <;> rfl
  · obtain ⟨n, rfl⟩ : ∃ n, order = n + 11 := ⟨order - 11, by omega⟩
    have hcond : ¬ (1 ≤ n + 11 ∧ n + 11 ≤ 10) := by omega
    rw [if_neg hcond]
    rfl

/-- C6: for every 8-bit order value, the integer overload reports found
exactly when the order lies between 1 and 10, the output then being the
order-th ordinal node of the catalog whatever the store and the prior value
of the output; for every other order it reports not-found and the output is
the empty address, which is not a valid address. -/
theorem resolveOrderRoleRelationOrder_table (K : Keynodes) (ctx : ScMemoryContext)
    (order : Nat) (relationAddr : ScAddr) (_horder : order < 256) :
    resolveOrderRoleRelationOrder K ctx order relationAddr
      = (if 1 ≤ order ∧ order ≤ 10 then (true, K.rrel order) else (false, ScAddr.empty))
    ∧ ((resolveOrderRoleRelationOrder K ctx order relationAddr).1 = true
        ↔ 1 ≤ order ∧ order ≤ 10)
    ∧ (ScAddr.empty.IsValid = false) := by
  have heq := resolveOrderRoleRelationOrder_eq K ctx order relationAddr
  refine ⟨heq, ?_, rfl⟩
  rw [heq]
  by_cases hc : 1 ≤ order ∧ order ≤ 10
  · simp [hc]
  · rw [if_neg hc]
    simp [hc]

/-- Witness of C6 at order 3, on the store `Sample.roleMarked` and a prior
output value that is not `rrel_3`. -/
theorem resolveOrderRoleRelationOrder_table_witness :
    (3 : Nat) < 256 ∧
    resolveOrderRoleRelationOrder Sample.K Sample.roleMarked 3 Sample.op
      = (true, Sample.K.rrel_3) :=
  ⟨by decide,
    (resolveOrderRoleRelationOrder_table Sample.K Sample.roleMarked 3 Sample.op
      (by decide)).1⟩

/-- C7 as stated fails: in the store `Sample.roleUnmarked` the edge
`argEdge` has the role-3 node attached by an access edge and nothing else
attached, yet the edge resolver reports not-found and leaves the output
untouched, while the integer lookup of 3 yields the role-3 node. -/
theorem resolveOrderRoleRelation_inverse_counterexample :
    attachedNodes Sample.roleUnmarked Sample.argEdge = [Sample.K.rrel 3] ∧
    resolveOrderRoleRelation Sample.K Sample.roleUnmarked Sample.argEdge ScAddr.empty
      = (false, ScAddr.empty) ∧
    resolveOrderRoleRelationOrder Sample.K Sample.roleUnmarked 3 ScAddr.empty
      = (true, Sample.K.rrel 3) := by
  decide

/-- C7, amended: for `k` from 1 to 10, when the role-`k` node is a constant
node attached to the edge by an access edge, the role-`k` node is marked by
the order-role meta-relation, and no other node attached to the edge is so
marked, the edge resolver reports found and returns the role-`k` node, the
node the integer lookup of `k` returns. -/
theorem resolveOrderRoleRelation_inverse (K : Keynodes) (ctx : ScMemoryContext)
    (arcAddr : ScAddr) (k : Nat) (relationAddr relationAddr2 : ScAddr)
    (hk1 : 1 ≤ k) (hk10 : k ≤ 10)
    (hatt : K.rrel k ∈ attachedNodes ctx arcAddr)
    (hmark : isMarkedBy ctx K.order_role_relation (K.rrel k) = true)
    (honly : ∀ n ∈ attachedNodes ctx arcAddr,
      isMarkedBy ctx K.order_role_relation n = true → n = K.rrel k) :
    resolveOrderRoleRelation K ctx arcAddr relationAddr = (true, K.rrel k) ∧
    resolveOrderRoleRelation K ctx arcAddr relationAddr
      = resolveOrderRoleRelationOrder K ctx k relationAddr2 := by
  have hres : resolveOrderRoleRelation K ctx arcAddr relationAddr = (true, K.rrel k) := by
    unfold resolveOrderRoleRelation
    rw [resolveOrderRoleRelationLoop_eq, iterator3_a_a_f_sources,
      find?_of_unique _ _ (K.rrel k) hatt hmark honly]
  refine ⟨hres, ?_⟩
  rw [hres, resolveOrderRoleRelationOrder_eq K ctx k relationAddr2, if_pos ⟨hk1, hk10⟩]

/-- Witness of the amended C7 for `k = 3` on the store `Sample.roleMarked`. -/
theorem resolveOrderRoleRelation_inverse_witness :
    Sample.K.rrel 3 ∈ attachedNodes Sample.roleMarked Sample.argEdge ∧
    isMarkedBy Sample.roleMarked Sample.K.order_role_relation (Sample.K.rrel 3) = true ∧
    resolveOrderRoleRelation Sample.K Sample.roleMarked Sample.argEdge ScAddr.empty
      = (true, Sample.K.rrel 3) :=
  ⟨by decide, by decide,
    (resolveOrderRoleRelation_inverse Sample.K Sample.roleMarked Sample.argEdge 3
      ScAddr.empty ScAddr.empty (by decide) (by decide) (by decide) (by decide)
      (by decide)).1⟩

/-- C8 as stated fails: in the store `Sample.roleVariable` a variable node
connected to the edge by an access edge is marked by an access edge from the
order-role meta-relation, and in the store `Sample.roleTempMarked` the
connected node `rrel_3` is marked by a temporary access edge from the
meta-relation; in both the edge resolver reports not-found. -/
theorem resolveOrderRoleRelation_first_marked_counterexample :
    (connectedNodes Sample.roleVariable Sample.argEdge = [Sample.K.rrel_3, Sample.v]
      ∧ accessEdges Sample.roleVariable Sample.K.order_role_relation Sample.v ≠ []
      ∧ resolveOrderRoleRelation Sample.K Sample.roleVariable Sample.argEdge ScAddr.empty
          = (false, ScAddr.empty))
    ∧ (connectedNodes Sample.roleTempMarked Sample.argEdge = [Sample.K.rrel_3]
      ∧ accessEdges Sample.roleTempMarked Sample.K.order_role_relation Sample.K.rrel_3 ≠ []
      ∧ resolveOrderRoleRelation Sample.K Sample.roleTempMarked Sample.argEdge ScAddr.empty
          = (false, ScAddr.empty)) := by
  decide

/-- C8, amended: the edge resolver returns, with success, the first node
marked by the order-role meta-relation (a constant positive permanent access
edge from the meta-relation to the node) among the constant nodes attached
to the edge by an access edge, taken in the store's iteration order; it
reports not-found, leaving the output as it was, exactly when none of those
constant nodes is so marked. -/
theorem resolveOrderRoleRelation_first_marked (K : Keynodes) (ctx : ScMemoryContext)
    (arcAddr relationAddr : ScAddr) :
    resolveOrderRoleRelation K ctx arcAddr relationAddr
      = (match (attachedNodes ctx arcAddr).find? (isMarkedBy ctx K.order_role_relation) with
        | some n => (true, n)
        | none => (false, relationAddr))
    ∧ ((resolveOrderRoleRelation K ctx arcAddr relationAddr).1 = false
        ↔ ∀ n ∈ attachedNodes ctx arcAddr, isMarkedBy ctx K.order_role_relation n = false) := by
  have heq : resolveOrderRoleRelation K ctx arcAddr relationAddr
      = (match (attachedNodes ctx arcAddr).find? (isMarkedBy ctx K.order_role_relation) with
        | some n => (true, n)
        | none => (false, relationAddr)) := by
    unfold resolveOrderRoleRelation
    rw [resolveOrderRoleRelationLoop_eq, iterator3_a_a_f_sources]
  refine ⟨heq, ?_⟩
  rw [heq]
  cases hf : (attachedNodes ctx arcAddr).find? (isMarkedBy ctx K.order_role_relation) with
  | none =>
    simp only [true_iff]
    intro n hn
    have := List.find?_eq_none.mp hf n hn
    simpa using this
  | some n =>
    simp only [Bool.true_eq_false, false_iff]
    intro hall
    have hmem := List.mem_of_find?_eq_some hf
    have hp := List.find?_some hf
    rw [hall n hmem] at hp
    exact absurd hp (by decide)

/-- C9 as stated fails: in the store `Sample.operatorTypeVariable` exactly
one node is attached to the operator by an access edge and it is marked by
an access edge from the atomic-operator-type relation, but it is a variable
node; in the store `Sample.operatorTypeTempMarked` the one attached node is
constant but marked by a temporary access edge; in both `resolveOperatorType`
reports not-found. -/
theorem resolveOperatorType_first_marked_counterexample :
    (connectedNodes Sample.operatorTypeVariable Sample.op = [Sample.opType]
      ∧ accessEdges Sample.operatorTypeVariable Sample.K.scp_operator_atomic_type
          Sample.opType ≠ []
      ∧ resolveOperatorType Sample.K Sample.operatorTypeVariable Sample.op ScAddr.empty
          = (false, ScAddr.empty))
    ∧ (connectedNodes Sample.operatorTypeTempMarked Sample.op = [Sample.opType]
      ∧ accessEdges Sample.operatorTypeTempMarked Sample.K.scp_operator_atomic_type
          Sample.opType ≠ []
      ∧ resolveOperatorType Sample.K Sample.operatorTypeTempMarked Sample.op ScAddr.empty
          = (false, ScAddr.empty)) := by
  decide

/-- C9, amended: `resolveOperatorType` returns, with success, the first node
marked by the atomic-operator-type relation (a constant positive permanent
access edge from the marker to the node) among the constant nodes attached
to the operator by an access edge, taken in the store's iteration order; so
it returns the marked node when exactly one attached constant node is so
marked, and it reports not-found, leaving the output as it was, when none
is. -/
theorem resolveOperatorType_first_marked (K : Keynodes) (ctx : ScMemoryContext)
    (operatorAddr operatorType : ScAddr) :
    resolveOperatorType K ctx operatorAddr operatorType
      = (match (attachedNodes ctx operatorAddr).find?
            (isMarkedBy ctx K.scp_operator_atomic_type) with
        | some n => (true, n)
        | none => (false, operatorType))
    ∧ (∀ t ∈ attachedNodes ctx operatorAddr,
        isMarkedBy ctx K.scp_operator_atomic_type t = true →
        (∀ n ∈ attachedNodes ctx operatorAddr,
          isMarkedBy ctx K.scp_operator_atomic_type n = true → n = t) →
        resolveOperatorType K ctx operatorAddr operatorType = (true, t))
    ∧ ((∀ n ∈ attachedNodes ctx operatorAddr,
          isMarkedBy ctx K.scp_operator_atomic_type n = false) →
        resolveOperatorType K ctx operatorAddr operatorType = (false, operatorType)) := by
  have heq : resolveOperatorType K ctx operatorAddr operatorType
      = (match (attachedNodes ctx operatorAddr).find?
            (isMarkedBy ctx K.scp_operator_atomic_type) with
        | some n => (true, n)
        | none => (false, operatorType)) := by
    unfold resolveOperatorType
    rw [resolveOperatorTypeLoop_eq, iterator3_a_a_f_sources]
  refine ⟨heq, ?_, ?_⟩
  · intro t ht hmark honly
    rw [heq, find?_of_unique _ _ t ht hmark honly]
  · intro hnone
    have hf : (attachedNodes ctx operatorAddr).find?
        (isMarkedBy ctx K.scp_operator_atomic_type) = none := by
      rw [List.find?_eq_none]
      intro n hn
      simp [hnone n hn]
    rw [heq, hf]

/-- Witness of the amended C9: in the store `Sample.typedOperator` the operator has one
marked type node attached and the resolver returns it; in the store
`Sample.roleMarked` it has none and the resolver reports not-found. -/
theorem resolveOperatorType_first_marked_witness :
    resolveOperatorType Sample.K Sample.typedOperator Sample.op ScAddr.empty
      = (true, Sample.opType) ∧
    resolveOperatorType Sample.K Sample.roleMarked Sample.op ScAddr.empty
      = (false, ScAddr.empty) :=
  ⟨(resolveOperatorType_first_marked Sample.K Sample.typedOperator Sample.op
      ScAddr.empty).2.1 Sample.opType (by decide) (by decide) (by decide),
   (resolveOperatorType_first_marked Sample.K Sample.roleMarked Sample.op
      ScAddr.empty).2.2 (by decide)⟩

/-! ## The neighbourhood printer -/

theorem string_join_cons (a : String) (l : List String) :
    String.join (a :: l) = a ++ String.join l := by
  rw [String.join_eq, String.join_eq]
  apply String.ext
  simp

theorem toInt32_step (a : Int) : toInt32 (toInt32 a + 1) = toInt32 (a + 1) := by
  unfold toInt32
  omega

theorem toInt32_of_range (c : Int) (h0 : 0 ≤ c) (h : c < 2147483648) : toInt32 c = c := by
  unfold toInt32
  omega

theorem element?_some (ctx : ScMemoryContext) (a : ScAddr) (el : ScElement)
    (h : ctx.element? a = some el) : el ∈ ctx ∧ el.addr = a := by
  unfold ScMemoryContext.element? at h
  refine ⟨List.mem_of_find?_eq_some h, ?_⟩
  have := List.find?_some h
  simpa using this

theorem element?_of_isElement (ctx : ScMemoryContext) (a : ScAddr)
    (h : ctx.IsElement a = true) : ∃ el, ctx.element? a = some el := by
  unfold ScMemoryContext.IsElement at h
  have h2 : (ctx.element? a).isSome = true := by
    simp only [Bool.and_eq_true] at h
    exact h.2
  exact Option.isSome_iff_exists.mp h2

theorem printSystemIdentifier_succ (ctx : ScMemoryContext) :
    ∀ (fuel : Nat) (a : ScAddr) (s : String),
      printSystemIdentifier fuel ctx a = some s →
      printSystemIdentifier (fuel + 1) ctx a = some s := by
  intro fuel
  induction fuel with
  | zero =>
    intro a s h
    simp [printSystemIdentifier] at h
  | succ f ih =>
    intro a s h
    rw [printSystemIdentifier] at h ⊢
    by_cases hn : (ScType.IsNode (ctx.GetElementType a)
        || ScType.IsLink (ctx.GetElementType a)) = true
    · rw [if_pos hn] at h ⊢
      exact h
    · rw [if_neg hn] at h ⊢
      cases hb : printSystemIdentifier f ctx (ctx.GetArcBegin a) with
      | none => simp [hb] at h
      | some b =>
        cases he : printSystemIdentifier f ctx (ctx.GetArcEnd a) with
        | none => simp [hb, he] at h
        | some e =>
          rw [hb, he] at h
          rw [ih _ _ hb, ih _ _ he]
          exact h

theorem printSystemIdentifier_mono (ctx : ScMemoryContext) (a : ScAddr) (s : String)
    (fuel fuel2 : Nat) (hle : fuel ≤ fuel2)
    (h : printSystemIdentifier fuel ctx a = some s) :
    printSystemIdentifier fuel2 ctx a = some s := by
  induction hle with
  | refl => exact h
  | step _ ih => exact printSystemIdentifier_succ ctx _ a s ih

theorem printSystemIdentifier_terminates (rank : ScAddr → Nat) (ctx : ScMemoryContext)
    (hwf : WellFormedBy rank ctx) :
    ∀ (r : Nat) (a : ScAddr), rank a = r → ctx.IsElement a = true →
      ∃ (fuel : Nat) (s : String), printSystemIdentifier fuel ctx a = some s := by
  intro r
  induction r using Nat.strong_induction_on with
  | _ r ih =>
    intro a hr ha
    obtain ⟨el, hel⟩ := element?_of_isElement ctx a ha
    obtain ⟨hmem, haddr⟩ := element?_some ctx a el hel
    have htype : ctx.GetElementType a = el.type := by
      simp [ScMemoryContext.GetElementType, hel]
    rcases hwf el hmem with ⟨hnode, _⟩ | ⟨hnode, hedge, hb, he, hrb, hre⟩
    · refine ⟨1, ?_⟩
      rw [printSystemIdentifier, htype, if_pos hnode]
      by_cases hs : (ctx.HelperGetSystemIdtf a == "") = true
      · exact ⟨toString a.seg ++ "|" ++ toString a.offset, by simp only [hs, if_true]⟩
      · exact ⟨ctx.HelperGetSystemIdtf a, by simp only [hs]; rfl⟩
    · have hbeg : ctx.GetArcBegin a = el.arcBegin := by
        simp [ScMemoryContext.GetArcBegin, hel, hedge]
      have hend : ctx.GetArcEnd a = el.arcEnd := by
        simp [ScMemoryContext.GetArcEnd, hel, hedge]
      rw [haddr] at hrb hre
      obtain ⟨f1, s1, h1⟩ := ih (rank el.arcBegin) (by omega) el.arcBegin rfl hb
      obtain ⟨f2, s2, h2⟩ := ih (rank el.arcEnd) (by omega) el.arcEnd rfl he
      have h1m := printSystemIdentifier_mono ctx _ s1 f1 (max f1 f2) (le_max_left _ _) h1
      have h2m := printSystemIdentifier_mono ctx _ s2 f2 (max f1 f2) (le_max_right _ _) h2
      refine ⟨max f1 f2 + 1, "(" ++ s1 ++ "->" ++ s2 ++ ")", ?_⟩
      rw [printSystemIdentifier, htype]
      have hn : ¬ ((ScType.IsNode el.type || ScType.IsLink el.type) = true) := by
        rw [hnode]; decide
      rw [if_neg hn, hbeg, hend, h1m, h2m]

theorem exists_common_fuel (ctx : ScMemoryContext) (l : List ScAddr)
    (h : ∀ a ∈ l, ∃ (fuel : Nat) (s : String), printSystemIdentifier fuel ctx a = some s) :
    ∃ fuel0 : Nat, ∀ a ∈ l, ∃ s : String, printSystemIdentifier fuel0 ctx a = some s := by
  induction l with
  | nil => exact ⟨0, by simp⟩
  | cons hd tl ih =>
    obtain ⟨f1, s1, h1⟩ := h hd (List.mem_cons_self _ _)
    obtain ⟨f2, h2⟩ := ih (fun a ha => h a (List.mem_cons_of_mem _ ha))
    refine ⟨max f1 f2, ?_⟩
    intro a ha
    rcases List.mem_cons.mp ha with rfl | ha
    · exact ⟨s1, printSystemIdentifier_mono ctx _ s1 f1 _ (le_max_left _ _) h1⟩
    · obtain ⟨s, hs⟩ := h2 a ha
      exact ⟨s, printSystemIdentifier_mono ctx _ s f2 _ (le_max_right _ _) hs⟩

theorem printInfoInputLoop_lines (ctx : ScMemoryContext) (fuel0 : Nat)
    (l : List (ScAddr × ScAddr × ScAddr))
    (hprint : ∀ t ∈ l, ∃ s : String, printSystemIdentifier fuel0 ctx t.1 = some s) :
    ∀ (c : Int), ∃ lines : List String,
      (∀ fuel, fuel0 ≤ fuel →
        printInfoInputLoop fuel ctx l (toInt32 c)
          = some (toInt32 (c + l.length), String.join lines))
      ∧ List.Forall₂ (fun t line => ∃ s, printSystemIdentifier fuel0 ctx t.1 = some s
          ∧ line = inputArcLine ctx t s) l lines := by
  induction l with
  | nil =>
    intro c
    refine ⟨[], ?_, List.Forall₂.nil⟩
    intro fuel _
    simp [printInfoInputLoop, String.join]
  | cons t rest ih =>
    intro c
    obtain ⟨s, hs⟩ := hprint t (List.mem_cons_self _ _)
    obtain ⟨lines, hloop, hall⟩ :=
      ih (fun u hu => hprint u (List.mem_cons_of_mem _ hu)) (c + 1)
    refine ⟨inputArcLine ctx t s :: lines, ?_, List.Forall₂.cons ⟨s, hs, rfl⟩ hall⟩
    intro fuel hfuel
    have hs2 := printSystemIdentifier_mono ctx _ s fuel0 fuel hfuel hs
    have hloop2 := hloop fuel hfuel
    rw [printInfoInputLoop, hs2, toInt32_step, hloop2, string_join_cons]
    simp only [List.length_cons, Nat.cast_add, Nat.cast_one]
    congr 3
    omega

theorem printInfoOutputLoop_lines (ctx : ScMemoryContext) (fuel0 : Nat)
    (l : List (ScAddr × ScAddr × ScAddr))
    (hprint : ∀ t ∈ l, ∃ s : String, printSystemIdentifier fuel0 ctx t.2.2 = some s) :
    ∀ (c : Int), ∃ lines : List String,
      (∀ fuel, fuel0 ≤ fuel →
        printInfoOutputLoop fuel ctx l (toInt32 c)
          = some (toInt32 (c + l.length), String.join lines))
      ∧ List.Forall₂ (fun t line => ∃ s, printSystemIdentifier fuel0 ctx t.2.2 = some s
          ∧ line = outputArcLine ctx t s) l lines := by
  induction l with
  | nil =>
    intro c
    refine ⟨[], ?_, List.Forall₂.nil⟩
    intro fuel _
    simp [printInfoOutputLoop, String.join]
  | cons t rest ih =>
    intro c
    obtain ⟨s, hs⟩ := hprint t (List.mem_cons_self _ _)
    obtain ⟨lines, hloop, hall⟩ :=
      ih (fun u hu => hprint u (List.mem_cons_of_mem _ hu)) (c + 1)
    refine ⟨outputArcLine ctx t s :: lines, ?_, List.Forall₂.cons ⟨s, hs, rfl⟩ hall⟩
    intro fuel hfuel
    have hs2 := printSystemIdentifier_mono ctx _ s fuel0 fuel hfuel hs
    have hloop2 := hloop fuel hfuel
    rw [printInfoOutputLoop, hs2, toInt32_step, hloop2, string_join_cons]
    simp only [List.length_cons, Nat.cast_add, Nat.cast_one]
    congr 3
    omega

theorem iterator3_a_a_f_wildcard (ctx : ScMemoryContext) (x : ScAddr) :
    ctx.Iterator3_a_a_f 0 0 x
      = (incomingEdges ctx x).map (fun el => (el.arcBegin, el.addr, el.arcEnd)) := by
  unfold ScMemoryContext.Iterator3_a_a_f incomingEdges
  congr 1
  apply List.filter_congr
  intro el _
  simp [ScType.matchesPattern]

theorem iterator3_f_a_a_wildcard (ctx : ScMemoryContext) (x : ScAddr) :
    ctx.Iterator3_f_a_a x 0 0
      = (outgoingEdges ctx x).map (fun el => (el.arcBegin, el.addr, el.arcEnd)) := by
  unfold ScMemoryContext.Iterator3_f_a_a outgoingEdges
  congr 1
  apply List.filter_congr
  intro el _
  simp [ScType.matchesPattern]

theorem toString_natCast (m : Nat) : toString ((m : Nat) : Int) = toString m := rfl

theorem printSystemIdentifier_of_wellFormed (ctx : ScMemoryContext) (hwf : WellFormed ctx)
    (a : ScAddr) (ha : ctx.IsElement a = true) :
    ∃ (fuel : Nat) (s : String), printSystemIdentifier fuel ctx a = some s := by
  obtain ⟨rank, hrank⟩ := hwf
  exact printSystemIdentifier_terminates rank ctx hrank (rank a) a rfl ha

theorem endpoints_of_edge (ctx : ScMemoryContext) (hwf : WellFormed ctx) (el : ScElement)
    (hmem : el ∈ ctx) (hedge : ScType.IsEdge el.type = true) :
    ctx.IsElement el.arcBegin = true ∧ ctx.IsElement el.arcEnd = true := by
  obtain ⟨rank, hrank⟩ := hwf
  rcases hrank el hmem with ⟨_, hno⟩ | ⟨_, _, hb, he, _, _⟩
  · rw [hedge] at hno
    exact absurd hno (by decide)
  · exact ⟨hb, he⟩

theorem printInfo_text (ctx : ScMemoryContext) (elemAddr : ScAddr)
    (hwf : WellFormed ctx) (hx : ctx.IsElement elemAddr = true) :
    ∃ (fuel0 : Nat) (idtf : String) (inLines outLines : List String),
      printSystemIdentifier fuel0 ctx elemAddr = some idtf
      ∧ (∀ fuel, fuel0 ≤ fuel →
        printInfo fuel ctx elemAddr
          = some (idtf ++ "\n"
                    ++ "Input arcs:\n" ++ String.join inLines
                    ++ "Total input arcs: "
                    ++ toString (toInt32 ((incomingEdges ctx elemAddr).length : Nat)) ++ "\n"
                    ++ "Output arcs:\n" ++ String.join outLines
                    ++ "Total output arcs: "
                    ++ toString (toInt32 ((outgoingEdges ctx elemAddr).length : Nat)) ++ "\n",
                  ctx))
      ∧ List.Forall₂
          (fun el line => ∃ s, printSystemIdentifier fuel0 ctx el.arcBegin = some s
            ∧ line = "\t" ++ toString el.addr.seg ++ "|" ++ toString el.addr.offset
                ++ (if ScType.BitAnd (ctx.GetElementType el.addr) sc_type_arc_access
                    then " <- " else " <= ")
                ++ s ++ "\n")
          (incomingEdges ctx elemAddr) inLines
      ∧ List.Forall₂
          (fun el line => ∃ s, printSystemIdentifier fuel0 ctx el.arcEnd = some s
            ∧ line = "\t" ++ toString el.addr.seg ++ "|" ++ toString el.addr.offset
                ++ (if ScType.BitAnd (ctx.GetElementType el.addr) sc_type_arc_access
                    then " -> " else " => ")
                ++ s ++ "\n")
          (outgoingEdges ctx elemAddr) outLines := by
  have hall : ∀ a ∈ elemAddr :: ((incomingEdges ctx elemAddr).map (fun el => el.arcBegin)
      ++ (outgoingEdges ctx elemAddr).map (fun el => el.arcEnd)),
      ∃ (fuel : Nat) (s : String), printSystemIdentifier fuel ctx a = some s := by
    intro a ha
    rcases List.mem_cons.mp ha with rfl | ha
    · exact printSystemIdentifier_of_wellFormed ctx hwf _ hx
    · rcases List.mem_append.mp ha with ha | ha
      · obtain ⟨el, hel, rfl⟩ := List.mem_map.mp ha
        have hf := List.mem_filter.mp hel
        have hedge : ScType.IsEdge el.type = true := by
          have := hf.2
          simp only [Bool.and_eq_true] at this
          exact this.1
        exact printSystemIdentifier_of_wellFormed ctx hwf _
          (endpoints_of_edge ctx hwf el hf.1 hedge).1
      · obtain ⟨el, hel, rfl⟩ := List.mem_map.mp ha
        have hf := List.mem_filter.mp hel
        have hedge : ScType.IsEdge el.type = true := by
          have := hf.2
          simp only [Bool.and_eq_true] at this
          exact this.1
        exact printSystemIdentifier_of_wellFormed ctx hwf _
          (endpoints_of_edge ctx hwf el hf.1 hedge).2
  obtain ⟨fuel0, hfuel0⟩ := exists_common_fuel ctx _ hall
  obtain ⟨idtf, hid⟩ := hfuel0 elemAddr (List.mem_cons_self _ _)
  have hin : ∀ t ∈ ctx.Iterator3_a_a_f 0 0 elemAddr,
      ∃ s : String, printSystemIdentifier fuel0 ctx t.1 = some s := by
    intro t ht
    rw [iterator3_a_a_f_wildcard] at ht
    obtain ⟨el, hel, rfl⟩ := List.mem_map.mp ht
    exact hfuel0 _ (List.mem_cons_of_mem _
      (List.mem_append_left _ (List.mem_map.mpr ⟨el, hel, rfl⟩)))
  have hout : ∀ t ∈ ctx.Iterator3_f_a_a elemAddr 0 0,
      ∃ s : String, printSystemIdentifier fuel0 ctx t.2.2 = some s := by
    intro t ht
    rw [iterator3_f_a_a_wildcard] at ht
    obtain ⟨el, hel, rfl⟩ := List.mem_map.mp ht
    exact hfuel0 _ (List.mem_cons_of_mem _
      (List.mem_append_right _ (List.mem_map.mpr ⟨el, hel, rfl⟩)))
  obtain ⟨inLines, hinLoop, hinAll⟩ := printInfoInputLoop_lines ctx fuel0 _ hin 0
  obtain ⟨outLines, houtLoop, houtAll⟩ := printInfoOutputLoop_lines ctx fuel0 _ hout 0
  have hzero : toInt32 0 = 0 := by decide
  rw [hzero, zero_add] at hinLoop houtLoop
  rw [iterator3_a_a_f_wildcard] at hinAll
  rw [iterator3_f_a_a_wildcard] at houtAll
  have hinAll2 := List.forall₂_map_left_iff.mp hinAll
  have houtAll2 := List.forall₂_map_left_iff.mp houtAll
  refine ⟨fuel0, idtf, inLines, outLines, hid, ?_, hinAll2, houtAll2⟩
  intro fuel hfuel
  have h0 := printSystemIdentifier_mono ctx _ idtf fuel0 fuel hfuel hid
  have h1 := hinLoop fuel hfuel
  have h2 := houtLoop fuel hfuel
  have hlenIn : (ctx.Iterator3_a_a_f 0 0 elemAddr).length
      = (incomingEdges ctx elemAddr).length := by
    rw [iterator3_a_a_f_wildcard, List.length_map]
  have hlenOut : (ctx.Iterator3_f_a_a elemAddr 0 0).length
      = (outgoingEdges ctx elemAddr).length := by
    rw [iterator3_f_a_a_wildcard, List.length_map]
  rw [hlenIn] at h1
  rw [hlenOut] at h2
  unfold printInfo
  rw [hx, h0, h1, h2]
  rfl

theorem crowd_mem (count : Nat) (el : ScElement) (h : el ∈ Sample.crowd count) :
    el = ScElement.mkNode Sample.x ScType.NodeConst "x"
    ∨ el = ScElement.mkNode ⟨0, 2⟩ ScType.NodeConst "a"
    ∨ ∃ i : Nat, el = ScElement.mkEdge ⟨1 + i / 65536, i % 65536⟩
        ScType.EdgeAccessConstPosPerm ⟨0, 2⟩ Sample.x := by
  unfold Sample.crowd at h
  rcases List.mem_append.mp h with h | h
  · rcases List.mem_cons.mp h with h | h
    · exact Or.inl h
    · rcases List.mem_cons.mp h with h | h
      · exact Or.inr (Or.inl h)
      · exact absurd h (List.not_mem_nil el)
  · obtain ⟨i, _, hi⟩ := List.mem_map.mp h
    exact Or.inr (Or.inr ⟨i, hi.symm⟩)

theorem crowd_isElement (count : Nat) :
    (Sample.crowd count).IsElement Sample.x = true
    ∧ (Sample.crowd count).IsElement ⟨0, 2⟩ = true := by
  constructor <;> rfl

theorem crowd_wellFormed (count : Nat) : WellFormed (Sample.crowd count) := by
  refine ⟨fun a => a.seg, ?_⟩
  intro el hel
  rcases crowd_mem count el hel with rfl | rfl | ⟨i, rfl⟩
  · exact Or.inl ⟨by decide, by decide⟩
  · exact Or.inl ⟨by decide, by decide⟩
  · have hnode : (ScType.IsNode ScType.EdgeAccessConstPosPerm
        || ScType.IsLink ScType.EdgeAccessConstPosPerm) = false := by decide
    have hedge : ScType.IsEdge ScType.EdgeAccessConstPosPerm = true := by decide
    refine Or.inr ⟨hnode, hedge, (crowd_isElement count).2, (crowd_isElement count).1, ?_, ?_⟩
    · show 0 < 1 + i / 65536
      omega
    · show 0 < 1 + i / 65536
      omega

theorem crowd_incoming (count : Nat) :
    (incomingEdges (Sample.crowd count) Sample.x).length = count := by
  unfold incomingEdges Sample.crowd
  rw [List.filter_append]
  have h1 : List.filter (fun el => ScType.IsEdge el.type && el.arcEnd == Sample.x)
      [ScElement.mkNode Sample.x ScType.NodeConst "x",
        ScElement.mkNode ⟨0, 2⟩ ScType.NodeConst "a"] = [] := by
    decide
  have h2 : ∀ l : List ScElement,
      (∀ el ∈ l, (ScType.IsEdge el.type && el.arcEnd == Sample.x) = true) →
      List.filter (fun el => ScType.IsEdge el.type && el.arcEnd == Sample.x) l = l := by
    intro l hl
    exact List.filter_eq_self.mpr hl
  rw [h1, h2, List.nil_append, List.length_map, List.length_range]
  intro el hel
  obtain ⟨i, _, rfl⟩ := List.mem_map.mp hel
  show (ScType.IsEdge ScType.EdgeAccessConstPosPerm && Sample.x == Sample.x) = true
  decide

theorem crowd_outgoing (count : Nat) :
    (outgoingEdges (Sample.crowd count) Sample.x).length = 0 := by
  rw [List.length_eq_zero, List.eq_nil_iff_forall_not_mem]
  intro el hel
  have hf := List.mem_filter.mp hel
  rcases crowd_mem count el hf.1 with rfl | rfl | ⟨i, rfl⟩
  · exact absurd hf.2 (by decide)
  · exact absurd hf.2 (by decide)
  · have h : (ScType.IsEdge ScType.EdgeAccessConstPosPerm
        && ((⟨0, 2⟩ : ScAddr) == Sample.x)) = true := hf.2
    exact absurd h (by decide)

theorem crowd_text (count : Nat) :
    ∃ (fuel0 : Nat) (idtf : String) (inLines outLines : List String),
      inLines.length = count ∧
      ∀ fuel, fuel0 ≤ fuel →
        printInfo fuel (Sample.crowd count) Sample.x
          = some (idtf ++ "\n"
                    ++ "Input arcs:\n" ++ String.join inLines
                    ++ "Total input arcs: " ++ toString (toInt32 (count : Nat)) ++ "\n"
                    ++ "Output arcs:\n" ++ String.join outLines
                    ++ "Total output arcs: " ++ toString (toInt32 ((0 : Nat) : Int)) ++ "\n",
                  Sample.crowd count) := by
  obtain ⟨fuel0, idtf, inLines, outLines, _, htext, hinAll, _⟩ :=
    printInfo_text (Sample.crowd count) Sample.x (crowd_wellFormed count)
      (crowd_isElement count).1
  refine ⟨fuel0, idtf, inLines, outLines, ?_, ?_⟩
  · rw [← List.Forall₂.length_eq hinAll, crowd_incoming]
  · intro fuel hfuel
    rw [htext fuel hfuel, crowd_incoming, crowd_outgoing]

/-- C10 as stated fails: in the well-formed store `Sample.crowd 2147483648`
the element `x` has exactly 2147483648 incoming edges and no outgoing edge;
`printInfo` lists 2147483648 input lines and then writes the total of the
`int` counter, "Total input arcs: -2147483648". -/
theorem printInfo_totals_counterexample :
    WellFormed (Sample.crowd 2147483648)
    ∧ (Sample.crowd 2147483648).IsElement Sample.x = true
    ∧ (incomingEdges (Sample.crowd 2147483648) Sample.x).length = 2147483648
    ∧ (outgoingEdges (Sample.crowd 2147483648) Sample.x).length = 0
    ∧ ∃ (fuel0 : Nat) (idtf : String) (inLines outLines : List String),
        inLines.length = 2147483648 ∧
        ∀ fuel, fuel0 ≤ fuel →
          printInfo fuel (Sample.crowd 2147483648) Sample.x
            = some (idtf ++ "\n"
                      ++ "Input arcs:\n" ++ String.join inLines
                      ++ "Total input arcs: " ++ "-2147483648" ++ "\n"
                      ++ "Output arcs:\n" ++ String.join outLines
                      ++ "Total output arcs: " ++ "0" ++ "\n",
                    Sample.crowd 2147483648) := by
  have hwrap : toString (toInt32 ((2147483648 : Nat) : Int)) = "-2147483648" := by decide
  have hzero : toString (toInt32 ((0 : Nat) : Int)) = "0" := by decide
  refine ⟨crowd_wellFormed _, (crowd_isElement _).1, crowd_incoming _, crowd_outgoing _, ?_⟩
  obtain ⟨fuel0, idtf, inLines, outLines, hlen, htext⟩ := crowd_text 2147483648
  refine ⟨fuel0, idtf, inLines, outLines, hlen, ?_⟩
  intro fuel hfuel
  rw [htext fuel hfuel, hwrap, hzero]

/-- C10, amended: on a well-formed store, for an existing element with
exactly `m` incoming and `n` outgoing edges, `m` and `n` both below 2^31
(the range of the `int` counters), `printInfo` returns once the fuel of the
identifier printer is large enough; the text it writes is the identifier of
the element and a line end, "Input arcs:", one line per incoming edge (`m`
lines, each a tab, the address of the edge, the glyph " <- " for an access
edge and " <= " otherwise, the identifier of the source and a line end),
"Total input arcs: m", "Output arcs:", one line per outgoing edge (`n`
lines, with the glyphs " -> " and " => " and the identifier of the target)
and "Total output arcs: n"; the store after the call is the store before
it. -/
theorem printInfo_totals (ctx : ScMemoryContext) (elemAddr : ScAddr) (m n : Nat)
    (hwf : WellFormed ctx) (hx : ctx.IsElement elemAddr = true)
    (hm : (incomingEdges ctx elemAddr).length = m)
    (hn : (outgoingEdges ctx elemAddr).length = n)
    (hm31 : m < 2147483648) (hn31 : n < 2147483648) :
    ∃ (fuel0 : Nat) (idtf : String) (inLines outLines : List String),
      printSystemIdentifier fuel0 ctx elemAddr = some idtf
      ∧ (∀ fuel, fuel0 ≤ fuel →
        printInfo fuel ctx elemAddr
          = some (idtf ++ "\n"
                    ++ "Input arcs:\n" ++ String.join inLines
                    ++ "Total input arcs: " ++ toString m ++ "\n"
                    ++ "Output arcs:\n" ++ String.join outLines
                    ++ "Total output arcs: " ++ toString n ++ "\n",
                  ctx))
      ∧ inLines.length = m ∧ outLines.length = n
      ∧ List.Forall₂
          (fun el line => ∃ s, printSystemIdentifier fuel0 ctx el.arcBegin = some s
            ∧ line = "\t" ++ toString el.addr.seg ++ "|" ++ toString el.addr.offset
                ++ (if ScType.BitAnd (ctx.GetElementType el.addr) sc_type_arc_access
                    then " <- " else " <= ")
                ++ s ++ "\n")
          (incomingEdges ctx elemAddr) inLines
      ∧ List.Forall₂
          (fun el line => ∃ s, printSystemIdentifier fuel0 ctx el.arcEnd = some s
            ∧ line = "\t" ++ toString el.addr.seg ++ "|" ++ toString el.addr.offset
                ++ (if ScType.BitAnd (ctx.GetElementType el.addr) sc_type_arc_access
                    then " -> " else " => ")
                ++ s ++ "\n")
          (outgoingEdges ctx elemAddr) outLines := by
  obtain ⟨fuel0, idtf, inLines, outLines, hid, htext, hinAll, houtAll⟩ :=
    printInfo_text ctx elemAddr hwf hx
  refine ⟨fuel0, idtf, inLines, outLines, hid, ?_, ?_, ?_, hinAll, houtAll⟩
  · intro fuel hfuel
    rw [htext fuel hfuel, hm, hn,
      toInt32_of_range (m : Int) (by omega) (by omega),
      toInt32_of_range (n : Int) (by omega) (by omega),
      toString_natCast, toString_natCast]
  · rw [← hm]
    exact (List.Forall₂.length_eq hinAll).symm
  · rw [← hn]
    exact (List.Forall₂.length_eq houtAll).symm

/-- Witness of the amended C10 on the store `Sample.neighbourhood`, where `x`
has two incoming and three outgoing edges. -/
theorem printInfo_totals_witness :
    WellFormed Sample.neighbourhood ∧ Sample.neighbourhood.IsElement Sample.x = true ∧
    (incomingEdges Sample.neighbourhood Sample.x).length = 2 ∧
    (outgoingEdges Sample.neighbourhood Sample.x).length = 3 ∧
    ∃ (fuel0 : Nat) (idtf : String) (inLines outLines : List String),
      (∀ fuel, fuel0 ≤ fuel →
        printInfo fuel Sample.neighbourhood Sample.x
          = some (idtf ++ "\n"
                    ++ "Input arcs:\n" ++ String.join inLines
                    ++ "Total input arcs: " ++ toString 2 ++ "\n"
                    ++ "Output arcs:\n" ++ String.join outLines
                    ++ "Total output arcs: " ++ toString 3 ++ "\n",
                  Sample.neighbourhood))
      ∧ inLines.length = 2 ∧ outLines.length = 3 :=
  ⟨⟨fun a => a.offset, by unfold WellFormedBy; decide⟩, by decide, by decide, by decide,
    match printInfo_totals Sample.neighbourhood Sample.x 2 3
        ⟨fun a => a.offset, by unfold WellFormedBy; decide⟩ (by decide) (by decide)
        (by decide) (by decide) (by decide) with
    | ⟨fuel0, idtf, inLines, outLines, _, h, hi, ho, _⟩ =>
      ⟨fuel0, idtf, inLines, outLines, h, hi, ho⟩⟩

/-- The text `printInfo` writes for `x` in the store `Sample.neighbourhood`. -/
theorem printInfo_neighbourhood :
    printInfo 3 Sample.neighbourhood Sample.x
      = some ("x\nInput arcs:\n\t0|4 <- a\n\t0|5 <= 0|3\nTotal input arcs: 2\n"
          ++ "Output arcs:\n\t0|6 -> a\n\t0|7 => 0|3\n\t0|8 -> (a->x)\n"
          ++ "Total output arcs: 3\n", Sample.neighbourhood) := by
  decide

end Utils

end scp
